import Mathlib

/-!
Verification of the task/queue state manager (`app/core/state.py`), the
legacy state bridge (`app/services/legacy_processing.py`) and the
queue-processing route (`app/api/routes/clustering.py`) of the FaceRelis
backend.  The Python code is shallowly embedded: every state-manager
method runs under a single lock, so each method is modelled as a pure
function on the whole state; Python dictionaries become association
lists with insertion-order semantics; optional/defaulted arguments are
made explicit.
-/
set_option maxRecDepth 4000

/-- A Python dict lookup `m.get(k)` on an insertion-ordered dict modelled
as an association list. -/
def dictGet {β : Type} (m : List (String × β)) (k : String) : Option β :=
  match m with
  | [] => none
  | (k', v) :: rest => if k' = k then some v else dictGet rest k

/-- A Python dict store `m[k] = v`: replaces the value in place when the
key exists (keeping its position), otherwise appends the pair at the end,
matching dict insertion order. -/
def dictInsert {β : Type} (m : List (String × β)) (k : String) (v : β) :
    List (String × β) :=
  match m with
  | [] => [(k, v)]
  | (k', v') :: rest =>
      if k' = k then (k, v) :: rest else (k', v') :: dictInsert rest k v

/-- A Python dict removal `m.pop(k, None)`: drops every pair stored under
`k` (under the unique-keys discipline of a dict there is at most one). -/
def dictPop {β : Type} (m : List (String × β)) (k : String) :
    List (String × β) :=
  m.filter (fun p => p.1 ≠ k)

/-- The keys of the modelled dict, in insertion order. -/
def dictKeys {β : Type} (m : List (String × β)) : List String :=
  m.map Prod.fst

/-- `TaskState` from `app/core/state.py`: the record for one background
task.  `created_at` (a `time.time()` float in Python) is modelled as an
integer timestamp; no claim depends on its arithmetic. -/
structure TaskState where
  task_id : String
  folder_path : String
  status : String := "pending"
  progress : Int := 0
  message : String := "В очереди..."
  created_at : Int := 0
  include_excluded : Bool := false
  joint_mode : String := "copy"
  post_validate : Bool := false
  error : Option String := none
deriving Repr, DecidableEq

/-- `AppState` from `app/core/state.py`: the pending queue, the active
task mapping and the terminal-task history. -/
structure AppState where
  queue : List String := []
  current_tasks : List (String × TaskState) := []
  task_history : List TaskState := []
deriving Repr, DecidableEq

/-- The freshly constructed manager (`AppState.__init__`). -/
def AppState.empty : AppState := {}

/-- `AppState.enqueue`: append `folder_path` unless already present. -/
def AppState.enqueue (s : AppState) (folder_path : String) : AppState :=
  if folder_path ∈ s.queue then s
  else { s with queue := s.queue ++ [folder_path] }

/-- `AppState.get_queue`: a snapshot of the pending queue. -/
def AppState.get_queue (s : AppState) : List String :=
  s.queue

/-- `AppState.clear_queue`: empty the pending queue. -/
def AppState.clear_queue (s : AppState) : AppState :=
  { s with queue := [] }

/-- `AppState.upsert_task`: `self.current_tasks[t.task_id] = t`. -/
def AppState.upsert_task (s : AppState) (t : TaskState) : AppState :=
  { s with current_tasks := dictInsert s.current_tasks t.task_id t }

/-- The field-update block of `AppState.set_task_status`: status is
overwritten unconditionally, `message` only when truthy (non-empty, since
the Python default is `""`), `progress` and `error` only when not `None`. -/
def applyUpdate (t : TaskState) (status : String) (message : String)
    (progress : Option Int) (error : Option String) : TaskState :=
  let t1 := { t with status := status }
  let t2 := if message ≠ "" then { t1 with message := message } else t1
  let t3 := match progress with
            | some p => { t2 with progress := p }
            | none => t2
  match error with
  | some e => { t3 with error := some e }
  | none => t3

/-- `AppState.set_task_status`: no-op when `task_id` is not active;
otherwise update the record in place and, when the new status is terminal
(`done` or `error`), append it to the history and remove it from the
active mapping in the same atomic step. -/
def AppState.set_task_status (s : AppState) (task_id status : String)
    (message : String) (progress : Option Int) (error : Option String) :
    AppState :=
  match dictGet s.current_tasks task_id with
  | none => s
  | some t =>
      let t' := applyUpdate t status message progress error
      if status = "done" ∨ status = "error" then
        { s with task_history := s.task_history ++ [t'],
                 current_tasks := dictPop s.current_tasks task_id }
      else
        { s with current_tasks := dictInsert s.current_tasks task_id t' }

/-- `AppState.list_tasks`: the currently active records only. -/
def AppState.list_tasks (s : AppState) : List TaskState :=
  s.current_tasks.map Prod.snd

/-- `AppState.clear_tasks`: empty both the active mapping and history. -/
def AppState.clear_tasks (s : AppState) : AppState :=
  { s with current_tasks := [], task_history := [] }

/-- Identifiers currently in the active mapping. -/
def activeIds (s : AppState) : List String :=
  dictKeys s.current_tasks

/-- Identifiers of records in the history sequence. -/
def historyIds (s : AppState) : List String :=
  s.task_history.map TaskState.task_id

/-- One client operation on the state manager. -/
inductive Op where
  | enqueue (p : String)
  | clearQueue
  | upsert (t : TaskState)
  | setStatus (task_id status : String) (message : String)
      (progress : Option Int) (error : Option String)
  | clearTasks
deriving Repr, DecidableEq

/-- Interpret one operation on the manager state. -/
def stepOp (s : AppState) : Op → AppState
  | .enqueue p => s.enqueue p
  | .clearQueue => s.clear_queue
  | .upsert t => s.upsert_task t
  | .setStatus id st msg prog err => s.set_task_status id st msg prog err
  | .clearTasks => s.clear_tasks

/-- Run a sequence of operations from a given state. -/
def runOps (s : AppState) : List Op → AppState
  | [] => s
  | op :: ops => runOps (stepOp s op) ops

/-!  The legacy state bridge (`app/services/legacy_processing.py`).

The external ("old") engine keeps its own `current_tasks` dict whose
entries are plain dicts; every field read through `.get` may be absent,
so each field is an `Option`.  The engine itself is out of scope and is
modelled as a parameter: a function from the external state to the final
external state together with an optional exception. -/
/-- One entry of the external engine's `current_tasks` dict.  Each field
is optional because the entry is a plain dict read with `.get`. -/
structure OldTask where
  task_id : Option String := none
  status : Option String := none
  progress : Option Int := none
  message : Option String := none
  folder_path : Option String := none
  created_at : Option Int := none
  include_excluded : Option Bool := none
  joint_mode : Option String := none
  post_validate : Option Bool := none
  error : Option String := none
deriving Repr, DecidableEq

/-- The external engine's state dict (`old_app_state["current_tasks"]`). -/
structure OldState where
  current_tasks : List (String × OldTask) := []
deriving Repr, DecidableEq

/-- Outcome of one bridge invocation: the "legacy engine unavailable"
`RuntimeError`, or completion carrying the exception (if any) that
propagates to the caller after reconciliation. -/
inductive BridgeResult where
  | unavailable
  | finished (exc : Option String)
deriving Repr, DecidableEq

/-- The external engine's behaviour: it transforms its own state and may
raise (the `Option String` is the propagating exception's message). -/
def EngineBehaviour : Type := OldState → OldState × Option String

/-- The dict literal written into `old_app_state["current_tasks"][task_id]`
by the bridge's snapshot step: it copies `task_id`, `status`, `progress`,
`message`, `folder_path`, `created_at` and `include_excluded` from the
canonical record and nothing else. -/
def snapshotEntry (t : TaskState) : OldTask :=
  { task_id := some t.task_id
    status := some t.status
    progress := some t.progress
    message := some t.message
    folder_path := some t.folder_path
    created_at := some t.created_at
    include_excluded := some t.include_excluded }

/-- The snapshot step of `run_process_folder_task` (lines 31-45): look the
task up among the canonical manager's active records (`next(...)` over
`list_tasks()`) and, when found, store `snapshotEntry` in the external
state under the same identifier. -/
def bridgeSnapshot (news : AppState) (olds : OldState) (task_id : String) :
    OldState :=
  match news.list_tasks.find? (fun t => t.task_id == task_id) with
  | some t =>
      { olds with
          current_tasks := dictInsert olds.current_tasks task_id (snapshotEntry t) }
  | none => olds

/-- The reconciliation step in the `finally` block of
`run_process_folder_task`: when the external state holds an entry for
`task_id`, copy its status (default `"error"`), message (default
`"Completed"`), progress (default `100`) and error back through
`set_task_status`; when it holds none, set status `"completed"`,
the generic success message and progress `100`. -/
def bridgeReconcile (news : AppState) (olds : OldState) (task_id : String) :
    AppState :=
  match dictGet olds.current_tasks task_id with
  | some ot =>
      news.set_task_status task_id (ot.status.getD "error")
        (ot.message.getD "Completed") (some (ot.progress.getD 100)) ot.error
  | none =>
      news.set_task_status task_id "completed" "Обработка завершена успешно"
        (some 100) none

/-- `run_process_folder_task`: fail at once when the legacy entry point is
unreachable (`legacy_process_folder_task is None`); otherwise snapshot the
canonical record into the external state, invoke the engine, and — in a
`finally` block, so also when the engine raised — reconcile the external
state back into the canonical manager before the exception propagates.
Returns the final canonical state, the final external state and the
outcome. -/
def run_process_folder_task (available : Bool) (engine : EngineBehaviour)
    (task_id : String) (news : AppState) (olds : OldState) :
    AppState × OldState × BridgeResult :=
  if available = false then (news, olds, .unavailable)
  else
    let old1 := bridgeSnapshot news olds task_id
    let res := engine old1
    (bridgeReconcile news res.1 task_id, res.1, .finished res.2)

/-!  The queue-processing route (`app/api/routes/clustering.py`,
`process_queue`).  The `uuid.uuid4()` calls are modelled by the list of
identifiers they produce, one per queued folder, and the wall clock by a
fixed timestamp. -/
/-- The `TaskState(...)` literal built by `process_queue` for one queued
folder: status `"pending"`, progress `0`, the queued-message, and the
request's processing options. -/
def mkQueuedTask (task_id folder_path : String) (includeExcluded : Bool)
    (jointMode : String) (postValidate : Bool) (now : Int) : TaskState :=
  { task_id := task_id
    folder_path := folder_path
    status := "pending"
    progress := 0
    message := "В очереди..."
    created_at := now
    include_excluded := includeExcluded
    joint_mode := jointMode
    post_validate := postValidate
    error := none }

/-- The `for folder_path in queue` loop of `process_queue`: upsert one
fresh `pending` task per (identifier, folder) pair. -/
def drainLoop (includeExcluded : Bool) (jointMode : String)
    (postValidate : Bool) (now : Int) :
    AppState → List (String × String) → AppState
  | s, [] => s
  | s, (tid, fp) :: rest =>
      drainLoop includeExcluded jointMode postValidate now
        (s.upsert_task (mkQueuedTask tid fp includeExcluded jointMode postValidate now))
        rest

/-- `process_queue`: HTTP 400 when the queue is empty; otherwise create
one task per queued path (identifiers drawn from `ids`, the successive
`uuid.uuid4()` outcomes), clear the queue, and return the new state with
the generated identifiers. -/
def process_queue (s : AppState) (ids : List String) (includeExcluded : Bool)
    (jointMode : String) (postValidate : Bool) (now : Int) :
    Except Nat (AppState × List String) :=
  let queue := s.get_queue
  if queue = [] then .error 400
  else
    let pairs := ids.zip queue
    let s1 := drainLoop includeExcluded jointMode postValidate now s pairs
    .ok (s1.clear_queue, pairs.map Prod.fst)

def c7_state : AppState :=
  AppState.upsert_task AppState.empty { task_id := "a", folder_path := "/p" }

def c10_task : TaskState :=
  { task_id := "a", folder_path := "/p", status := "running", progress := 3,
    message := "старое сообщение", created_at := 1 }

def c10_state : AppState := AppState.upsert_task AppState.empty c10_task

def c3_task : TaskState :=
  { task_id := "a", folder_path := "/data/in", status := "pending",
    progress := 0, message := "В очереди...", created_at := 11,
    include_excluded := true, joint_mode := "move", post_validate := true,
    error := none }

def c3_state : AppState :=
  { queue := ["/other"],
    current_tasks := [("a", c3_task), ("b", { task_id := "b", folder_path := "/q" })],
    task_history := [] }

def scenC_task : TaskState :=
  { task_id := "X", folder_path := "/f", status := "running", progress := 10,
    message := "m", created_at := 1 }

def scenC_new : AppState :=
  { queue := [], current_tasks := [("X", scenC_task)], task_history := [] }

def scenC_old2 : OldState :=
  { current_tasks := [("X", { status := some "running", progress := some 40 })] }

def scenC_engine : EngineBehaviour := fun _ => (scenC_old2, some "boom")

def c1_task : TaskState :=
  { task_id := "t1", folder_path := "/data/f", status := "running",
    progress := 5, message := "Обработка запущена...", created_at := 7 }

def c1_new : AppState :=
  { queue := [], current_tasks := [("t1", c1_task)], task_history := [] }

def c1_engine : EngineBehaviour := fun _ => ({ current_tasks := [] }, none)

def c4_task : TaskState :=
  { task_id := "t4", folder_path := "/d", status := "pending", progress := 0,
    message := "m", created_at := 3, include_excluded := true,
    joint_mode := "move", post_validate := true, error := none }

def c4_new : AppState :=
  { queue := [], current_tasks := [("t4", c4_task)], task_history := [] }

/-!  Claim C6: queue behaviour under enqueue/clear sequences. -/
/-- The insertion-order list of first occurrences: keeps the head and
drops every later duplicate of it. -/
def firstOccurrences : List String → List String
  | [] => []
  | p :: rest => p :: (firstOccurrences rest).filter (fun x => x ≠ p)

/-- The raw list of paths passed to `enqueue` since the last
`clear_queue`, duplicates included. -/
def rawQueueStep (acc : List String) (op : Op) : List String :=
  match op with
  | .enqueue p => acc ++ [p]
  | .clearQueue => []
  | _ => acc

/-- All paths enqueued since the last clear, over a whole op sequence. -/
def enqueuedSinceClear (ops : List Op) : List String :=
  ops.foldl rawQueueStep []

/-- Recognizes the two queue operations. -/
def isQueueOp : Op → Bool
  | .enqueue _ => true
  | .clearQueue => true
  | _ => false

def c6_ops : List Op :=
  [.enqueue "/a", .enqueue "/b", .enqueue "/a", .clearQueue,
   .enqueue "/c", .enqueue "/c", .enqueue "/d"]

/-!  Claim C2: the active mapping and the history never share an
identifier, provided upserts use history-fresh identifiers. -/
/-- No identifier is simultaneously active and in history. -/
def noActiveHistoryOverlap (s : AppState) : Prop :=
  ∀ id, ¬(id ∈ activeIds s ∧ id ∈ historyIds s)

/-- Every active record is stored under its own identifier (a dict
invariant maintained because `upsert_task` keys by `t.task_id` and
`set_task_status` never changes `task_id`). -/
def keysConsistent (s : AppState) : Prop :=
  ∀ p ∈ s.current_tasks, (Prod.snd p).task_id = Prod.fst p

/-- The freshness side condition of one operation: an upsert must not
reuse an identifier already present in the history. -/
def opFresh (s : AppState) : Op → Bool
  | .upsert t => decide (t.task_id ∉ historyIds s)
  | _ => true

/-- Every upsert along the sequence uses a history-fresh identifier. -/
def freshUpserts : AppState → List Op → Bool
  | _, [] => true
  | s, op :: ops => opFresh s op && freshUpserts (stepOp s op) ops

def c2_t : TaskState := { task_id := "a", folder_path := "/p" }

def c2_bad_ops : List Op :=
  [.upsert c2_t, .setStatus "a" "done" "" none none, .upsert c2_t]

def c2_good_ops : List Op :=
  [.upsert c2_t, .setStatus "a" "done" "" none none,
   .upsert { task_id := "b", folder_path := "/q" }]

def c9_state : AppState :=
  { queue := ["/tmp/a", "/tmp/b"], current_tasks := [], task_history := [] }

/-!  Basic lemmas about the dict model. -/
theorem dictGet_insert {β : Type} (m : List (String × β)) (k k' : String)
    (v : β) :
    dictGet (dictInsert m k v) k' = if k = k' then some v else dictGet m k' := by
  induction m with
  | nil =>
      by_cases h : k = k' <;> simp [dictInsert, dictGet, h]
  | cons p rest ih =>
      obtain ⟨pk, pv⟩ := p
      by_cases h1 : pk = k
      · subst h1
        by_cases h2 : pk = k' <;> simp [dictInsert, dictGet, h2]
      · by_cases h2 : pk = k'
        · subst h2
          have hne : k ≠ pk := fun hh => h1 hh.symm
          simp [dictInsert, dictGet, h1, hne]
        · simp [dictInsert, dictGet, h1, h2, ih]

theorem dictGet_pop {β : Type} (m : List (String × β)) (k k' : String) :
    dictGet (dictPop m k) k' = if k' = k then none else dictGet m k' := by
  induction m with
  | nil => by_cases h : k' = k <;> simp [dictPop, dictGet, h]
  | cons p rest ih =>
      obtain ⟨pk, pv⟩ := p
      by_cases h1 : pk = k
      · rw [show dictPop ((pk, pv) :: rest) k = dictPop rest k from by
          simp [dictPop, List.filter_cons, h1]]
        rw [ih]
        by_cases h2 : k' = k
        · simp [h2]
        · have h3 : pk ≠ k' := by rw [h1]; exact fun hh => h2 hh.symm
          simp [dictGet, h2, h3]
      · rw [show dictPop ((pk, pv) :: rest) k = (pk, pv) :: dictPop rest k from by
          simp [dictPop, List.filter_cons, h1]]
        by_cases h2 : pk = k'
        · have h3 : ¬k' = k := by rw [← h2]; exact h1
          simp [dictGet, h2, h3]
        · simp [dictGet, h2, ih]

theorem dictGet_mem {β : Type} {m : List (String × β)} {k : String} {v : β}
    (h : dictGet m k = some v) : (k, v) ∈ m := by
  induction m with
  | nil => simp [dictGet] at h
  | cons p rest ih =>
      obtain ⟨pk, pv⟩ := p
      by_cases h1 : pk = k
      · subst h1
        simp [dictGet] at h
        simp [h]
      · simp [dictGet, h1] at h
        exact List.mem_cons_of_mem _ (ih h)

theorem dictGet_some_mem_keys {β : Type} {m : List (String × β)} {k : String}
    {v : β} (h : dictGet m k = some v) : k ∈ dictKeys m := by
  have := dictGet_mem h
  exact List.mem_map.2 ⟨(k, v), this, rfl⟩

theorem mem_dictInsert {β : Type} {m : List (String × β)} {k : String}
    {v : β} {p : String × β} (h : p ∈ dictInsert m k v) :
    p = (k, v) ∨ p ∈ m := by
  induction m with
  | nil => simpa [dictInsert] using h
  | cons q rest ih =>
      obtain ⟨qk, qv⟩ := q
      by_cases h1 : qk = k
      · simp [dictInsert, h1] at h
        rcases h with h | h
        · exact Or.inl h
        · exact Or.inr (List.mem_cons_of_mem _ h)
      · simp [dictInsert, h1] at h
        rcases h with h | h
        · exact Or.inr (by simp [h])
        · rcases ih h with h2 | h2
          · exact Or.inl h2
          · exact Or.inr (List.mem_cons_of_mem _ h2)

theorem mem_keys_dictInsert {β : Type} (m : List (String × β)) (k : String)
    (v : β) (id : String) :
    id ∈ dictKeys (dictInsert m k v) ↔ id = k ∨ id ∈ dictKeys m := by
  induction m with
  | nil => simp [dictInsert, dictKeys]
  | cons q rest ih =>
      obtain ⟨qk, qv⟩ := q
      by_cases h1 : qk = k
      · subst h1
        simp [dictInsert, dictKeys]
      · simp [dictInsert, h1, dictKeys] at ih ⊢
        tauto

theorem mem_dictPop {β : Type} {m : List (String × β)} {k : String}
    {p : String × β} (h : p ∈ dictPop m k) : p ∈ m :=
  List.mem_of_mem_filter h

theorem mem_keys_dictPop {β : Type} {m : List (String × β)} {k id : String}
    (h : id ∈ dictKeys (dictPop m k)) : id ≠ k ∧ id ∈ dictKeys m := by
  rcases List.mem_map.1 h with ⟨p, hp, rfl⟩
  have h1 := List.mem_of_mem_filter hp
  have h2 := List.of_mem_filter hp
  refine ⟨by simpa using h2, List.mem_map.2 ⟨p, h1, rfl⟩⟩

theorem dictInsert_length_fresh {β : Type} {m : List (String × β)}
    {k : String} (v : β) (h : k ∉ dictKeys m) :
    (dictInsert m k v).length = m.length + 1 := by
  induction m with
  | nil => simp [dictInsert]
  | cons q rest ih =>
      obtain ⟨qk, qv⟩ := q
      simp [dictKeys] at h
      push_neg at h
      simp [dictInsert, Ne.symm h.1, ih (by simpa [dictKeys] using h.2)]

/-!  Lemmas about the field-update block of `set_task_status`. -/
theorem applyUpdate_status (t : TaskState) (st msg : String)
    (p : Option Int) (e : Option String) :
    (applyUpdate t st msg p e).status = st := by
  cases p <;> cases e <;> by_cases h : msg = "" <;> simp [applyUpdate, h]

theorem applyUpdate_message (t : TaskState) (st msg : String)
    (p : Option Int) (e : Option String) :
    (applyUpdate t st msg p e).message = if msg ≠ "" then msg else t.message := by
  cases p <;> cases e <;> by_cases h : msg = "" <;> simp [applyUpdate, h]

theorem applyUpdate_progress (t : TaskState) (st msg : String)
    (p : Option Int) (e : Option String) :
    (applyUpdate t st msg p e).progress = p.getD t.progress := by
  cases p <;> cases e <;> by_cases h : msg = "" <;> simp [applyUpdate, h]

theorem applyUpdate_error (t : TaskState) (st msg : String)
    (p : Option Int) (e : Option String) :
    (applyUpdate t st msg p e).error =
      (match e with | some x => some x | none => t.error) := by
  cases p <;> cases e <;> by_cases h : msg = "" <;> simp [applyUpdate, h]

theorem applyUpdate_task_id (t : TaskState) (st msg : String)
    (p : Option Int) (e : Option String) :
    (applyUpdate t st msg p e).task_id = t.task_id := by
  cases p <;> cases e <;> by_cases h : msg = "" <;> simp [applyUpdate, h]

theorem applyUpdate_folder_path (t : TaskState) (st msg : String)
    (p : Option Int) (e : Option String) :
    (applyUpdate t st msg p e).folder_path = t.folder_path := by
  cases p <;> cases e <;> by_cases h : msg = "" <;> simp [applyUpdate, h]

theorem applyUpdate_created_at (t : TaskState) (st msg : String)
    (p : Option Int) (e : Option String) :
    (applyUpdate t st msg p e).created_at = t.created_at := by
  cases p <;> cases e <;> by_cases h : msg = "" <;> simp [applyUpdate, h]

theorem applyUpdate_include_excluded (t : TaskState) (st msg : String)
    (p : Option Int) (e : Option String) :
    (applyUpdate t st msg p e).include_excluded = t.include_excluded := by
  cases p <;> cases e <;> by_cases h : msg = "" <;> simp [applyUpdate, h]

theorem applyUpdate_joint_mode (t : TaskState) (st msg : String)
    (p : Option Int) (e : Option String) :
    (applyUpdate t st msg p e).joint_mode = t.joint_mode := by
  cases p <;> cases e <;> by_cases h : msg = "" <;> simp [applyUpdate, h]

theorem applyUpdate_post_validate (t : TaskState) (st msg : String)
    (p : Option Int) (e : Option String) :
    (applyUpdate t st msg p e).post_validate = t.post_validate := by
  cases p <;> cases e <;> by_cases h : msg = "" <;> simp [applyUpdate, h]

theorem set_task_status_nonterminal (s : AppState) (task_id st msg : String)
    (p : Option Int) (e : Option String) (t : TaskState)
    (h : dictGet s.current_tasks task_id = some t)
    (hnt : ¬(st = "done" ∨ st = "error")) :
    s.set_task_status task_id st msg p e =
      { s with current_tasks :=
          dictInsert s.current_tasks task_id (applyUpdate t st msg p e) } := by
  simp only [AppState.set_task_status, h]
  rw [if_neg hnt]

theorem set_task_status_terminal (s : AppState) (task_id st msg : String)
    (p : Option Int) (e : Option String) (t : TaskState)
    (h : dictGet s.current_tasks task_id = some t)
    (ht : st = "done" ∨ st = "error") :
    s.set_task_status task_id st msg p e =
      { s with task_history := s.task_history ++ [applyUpdate t st msg p e],
               current_tasks := dictPop s.current_tasks task_id } := by
  simp only [AppState.set_task_status, h]
  rw [if_pos ht]

theorem set_task_status_missing (s : AppState) (task_id st msg : String)
    (p : Option Int) (e : Option String)
    (h : dictGet s.current_tasks task_id = none) :
    s.set_task_status task_id st msg p e = s := by
  simp [AppState.set_task_status, h]

/-- Claim C7: calling `set_task_status` on an identifier that is not in
the active mapping is a no-op — no error is raised and the active
mapping, the history and the queue are all left unchanged (the whole
state is returned as it was). -/
theorem claim_C7 (s : AppState) (task_id st msg : String) (p : Option Int)
    (e : Option String) (h : dictGet s.current_tasks task_id = none) :
    s.set_task_status task_id st msg p e = s :=
  set_task_status_missing s task_id st msg p e h

theorem claim_C7_witness :
    dictGet c7_state.current_tasks "b" = none ∧
    AppState.set_task_status c7_state "b" "done" "x" (some 5) (some "e") =
      c7_state :=
  ⟨by decide, claim_C7 c7_state "b" "done" "x" (some 5) (some "e") (by decide)⟩

/-- Claim C10: supplying the `message` argument as the explicit empty
string leaves the stored message at its prior value — the update is
guarded by a truthiness test, so an empty message behaves exactly like an
omitted one: the record stored by `set_task_status` (in the active
mapping for a non-terminal status, in the history for a terminal one)
keeps the old message. -/
theorem claim_C10 (s : AppState) (task_id st : String) (p : Option Int)
    (e : Option String) (t : TaskState)
    (h : dictGet s.current_tasks task_id = some t) :
    (applyUpdate t st "" p e).message = t.message ∧
    ((st = "done" ∨ st = "error") →
      (s.set_task_status task_id st "" p e).task_history =
        s.task_history ++ [applyUpdate t st "" p e]) ∧
    (¬(st = "done" ∨ st = "error") →
      dictGet (s.set_task_status task_id st "" p e).current_tasks task_id =
        some (applyUpdate t st "" p e)) := by
  refine ⟨by simpa using applyUpdate_message t st "" p e, ?_, ?_⟩
  · intro ht
    rw [set_task_status_terminal s task_id st "" p e t h ht]
  · intro hnt
    rw [set_task_status_nonterminal s task_id st "" p e t h hnt]
    simp [dictGet_insert]

theorem claim_C10_witness :
    dictGet c10_state.current_tasks "a" = some c10_task ∧
    ((applyUpdate c10_task "running" "" (some 9) none).message = c10_task.message ∧
     (("running" = "done" ∨ "running" = "error") →
       (c10_state.set_task_status "a" "running" "" (some 9) none).task_history =
         c10_state.task_history ++ [applyUpdate c10_task "running" "" (some 9) none]) ∧
     (¬("running" = "done" ∨ "running" = "error") →
       dictGet (c10_state.set_task_status "a" "running" "" (some 9) none).current_tasks "a" =
         some (applyUpdate c10_task "running" "" (some 9) none))) :=
  ⟨by decide, claim_C10 c10_state "a" "running" (some 9) none c10_task (by decide)⟩

/-- Claim C3: on an active record and a non-terminal status,
`set_task_status` overwrites `status` unconditionally; overwrites
`message`, `progress` and `error` exactly when the corresponding argument
is supplied (a non-empty message, a non-`None` progress or error); and
leaves every omitted field of the record (`task_id`, `folder_path`,
`created_at` and the three option flags), every other active record, the
history and the queue unchanged. -/
theorem claim_C3 (s : AppState) (task_id st msg : String) (p : Option Int)
    (e : Option String) (t : TaskState)
    (h : dictGet s.current_tasks task_id = some t)
    (hnt : ¬(st = "done" ∨ st = "error")) :
    dictGet (s.set_task_status task_id st msg p e).current_tasks task_id =
      some (applyUpdate t st msg p e) ∧
    (applyUpdate t st msg p e).status = st ∧
    (applyUpdate t st msg p e).message = (if msg ≠ "" then msg else t.message) ∧
    (applyUpdate t st msg p e).progress = p.getD t.progress ∧
    (applyUpdate t st msg p e).error =
      (match e with | some x => some x | none => t.error) ∧
    (applyUpdate t st msg p e).task_id = t.task_id ∧
    (applyUpdate t st msg p e).folder_path = t.folder_path ∧
    (applyUpdate t st msg p e).created_at = t.created_at ∧
    (applyUpdate t st msg p e).include_excluded = t.include_excluded ∧
    (applyUpdate t st msg p e).joint_mode = t.joint_mode ∧
    (applyUpdate t st msg p e).post_validate = t.post_validate ∧
    (∀ id', id' ≠ task_id →
      dictGet (s.set_task_status task_id st msg p e).current_tasks id' =
        dictGet s.current_tasks id') ∧
    (s.set_task_status task_id st msg p e).task_history = s.task_history ∧
    (s.set_task_status task_id st msg p e).queue = s.queue := by
  rw [set_task_status_nonterminal s task_id st msg p e t h hnt]
  refine ⟨by simp [dictGet_insert],
    applyUpdate_status t st msg p e,
    applyUpdate_message t st msg p e,
    applyUpdate_progress t st msg p e,
    applyUpdate_error t st msg p e,
    applyUpdate_task_id t st msg p e,
    applyUpdate_folder_path t st msg p e,
    applyUpdate_created_at t st msg p e,
    applyUpdate_include_excluded t st msg p e,
    applyUpdate_joint_mode t st msg p e,
    applyUpdate_post_validate t st msg p e,
    ?_, rfl, rfl⟩
  intro id' hne
  rw [dictGet_insert]
  exact if_neg (fun hh => hne hh.symm)

theorem claim_C3_witness :
    dictGet c3_state.current_tasks "a" = some c3_task ∧
    ¬(("running" : String) = "done" ∨ ("running" : String) = "error") ∧
    dictGet (c3_state.set_task_status "a" "running" "Идёт обработка" (some 42) none).current_tasks "a" =
      some (applyUpdate c3_task "running" "Идёт обработка" (some 42) none) ∧
    (applyUpdate c3_task "running" "Идёт обработка" (some 42) none).status = "running" ∧
    (applyUpdate c3_task "running" "Идёт обработка" (some 42) none).progress = 42 ∧
    (applyUpdate c3_task "running" "Идёт обработка" (some 42) none).error = none ∧
    (applyUpdate c3_task "running" "Идёт обработка" (some 42) none).folder_path = c3_task.folder_path ∧
    dictGet (c3_state.set_task_status "a" "running" "Идёт обработка" (some 42) none).current_tasks "b" =
      dictGet c3_state.current_tasks "b" ∧
    (c3_state.set_task_status "a" "running" "Идёт обработка" (some 42) none).queue = c3_state.queue := by
  have hmain := claim_C3 c3_state "a" "running" "Идёт обработка" (some 42) none
    c3_task (by decide) (by decide)
  refine ⟨by decide, by decide, hmain.1, hmain.2.1, by decide, by decide, hmain.2.2.2.2.2.2.1,
    hmain.2.2.2.2.2.2.2.2.2.2.2.1 "b" (by decide), hmain.2.2.2.2.2.2.2.2.2.2.2.2.2⟩

/-- Claim C8: when the legacy entry point is unreachable (the external
module failed to import), `run_process_folder_task` fails at once with
the "legacy engine unavailable" `RuntimeError` and performs no further
action: both the canonical manager state and the external state are
returned unchanged. -/
theorem claim_C8 (engine : EngineBehaviour) (task_id : String)
    (news : AppState) (olds : OldState) :
    run_process_folder_task false engine task_id news olds =
      (news, olds, .unavailable) := by
  simp [run_process_folder_task]

/-- Claim C5: when the engine raises, the bridge still runs the
reconciliation step — the external entry's status (default `"error"`),
message (default `"Completed"`), progress (default `100`) and error are
copied back into the canonical manager through `set_task_status` — and
only then is the exception handed to the caller: the returned outcome
carries both the reconciled canonical state and the propagating
exception. -/
theorem claim_C5 (engine : EngineBehaviour) (task_id : String)
    (news : AppState) (olds : OldState) (old2 : OldState) (exc : String)
    (ot : OldTask)
    (hengine : engine (bridgeSnapshot news olds task_id) = (old2, some exc))
    (hentry : dictGet old2.current_tasks task_id = some ot) :
    run_process_folder_task true engine task_id news olds =
      (news.set_task_status task_id (ot.status.getD "error")
        (ot.message.getD "Completed") (some (ot.progress.getD 100)) ot.error,
       old2, .finished (some exc)) := by
  simp [run_process_folder_task, hengine, bridgeReconcile, hentry]

theorem claim_C5_witness :
    run_process_folder_task true scenC_engine "X" scenC_new {} =
      (AppState.set_task_status scenC_new "X" "running" "Completed" (some 40) none,
       scenC_old2, .finished (some "boom")) ∧
    dictGet (run_process_folder_task true scenC_engine "X" scenC_new {}).1.current_tasks "X" =
      some { scenC_task with
             status := "running", progress := 40, message := "Completed" } :=
  ⟨claim_C5 scenC_engine "X" scenC_new {} scenC_old2 "boom"
     { status := some "running", progress := some 40 } rfl rfl,
   by decide⟩

/-- Claim C1, observed behaviour at the failing input: when the external
state holds no entry for the task after invocation, the bridge's fallback
calls `set_task_status` with status `"completed"`, progress `100` and the
generic success message — but `"completed"` is not in the terminal set
`("done", "error")` tested by `set_task_status`, so the record stays in
the active mapping and the history is not extended: it is not moved to
history as the documented lifecycle requires. -/
theorem claim_C1_code_behavior :
    (run_process_folder_task true c1_engine "t1" c1_new {}).1 =
      { queue := [],
        current_tasks := [("t1", { c1_task with
                                   status := "completed"
                                   progress := 100
                                   message := "Обработка завершена успешно" })],
        task_history := [] } ∧
    (run_process_folder_task true c1_engine "t1" c1_new {}).2.2 =
      .finished none := by
  decide

/-- Claim C4 counterexample: for a canonical record with joint-photo mode
`"move"` and post-validation on, the entry the snapshot step writes into
the external state carries neither of those two options — they are left
absent — so the entry does not carry all of the record's processing
options as claimed. -/
theorem claim_C4_counterexample :
    dictGet (bridgeSnapshot c4_new {} "t4").current_tasks "t4" =
      some (snapshotEntry c4_task) ∧
    (snapshotEntry c4_task).joint_mode ≠ some c4_task.joint_mode ∧
    (snapshotEntry c4_task).post_validate ≠ some c4_task.post_validate := by
  decide

/-- Claim C4 as amended: for every record found for `task_id` among the
canonical manager's active tasks, the snapshot step writes an entry into
the external state under the same identifier carrying the record's
status, progress, message, folder path, creation time and include-excluded
flag; the joint-photo mode and the post-validation flag are not copied
(those fields are left absent). -/
theorem claim_C4_amended (news : AppState) (olds : OldState)
    (task_id : String) (t : TaskState)
    (h : news.list_tasks.find? (fun x => x.task_id == task_id) = some t) :
    dictGet (bridgeSnapshot news olds task_id).current_tasks task_id =
      some (snapshotEntry t) ∧
    (snapshotEntry t).task_id = some t.task_id ∧
    (snapshotEntry t).status = some t.status ∧
    (snapshotEntry t).progress = some t.progress ∧
    (snapshotEntry t).message = some t.message ∧
    (snapshotEntry t).folder_path = some t.folder_path ∧
    (snapshotEntry t).created_at = some t.created_at ∧
    (snapshotEntry t).include_excluded = some t.include_excluded ∧
    (snapshotEntry t).joint_mode = none ∧
    (snapshotEntry t).post_validate = none := by
  refine ⟨?_, rfl, rfl, rfl, rfl, rfl, rfl, rfl, rfl, rfl⟩
  simp [bridgeSnapshot, h, dictGet_insert]

theorem mem_firstOccurrences (l : List String) (x : String) :
    x ∈ firstOccurrences l ↔ x ∈ l := by
  induction l with
  | nil => simp [firstOccurrences]
  | cons p rest ih =>
      by_cases hx : x = p
      · simp [firstOccurrences, hx]
      · simp [firstOccurrences, hx, List.mem_filter, ih]

theorem nodup_firstOccurrences (l : List String) :
    (firstOccurrences l).Nodup := by
  induction l with
  | nil => simp [firstOccurrences]
  | cons p rest ih =>
      refine List.Nodup.cons ?_ (ih.filter _)
      intro hmem
      have hcontra := List.of_mem_filter hmem
      simp at hcontra

theorem firstOccurrences_append (l : List String) (p : String) :
    firstOccurrences (l ++ [p]) =
      if p ∈ l then firstOccurrences l else firstOccurrences l ++ [p] := by
  induction l with
  | nil => simp [firstOccurrences]
  | cons q rest ih =>
      by_cases hq : p = q
      · subst hq
        simp [firstOccurrences, ih, List.filter_append]
        by_cases hr : p ∈ rest <;> simp [hr]
      · by_cases hr : p ∈ rest
        · simp [firstOccurrences, ih, hr, hq]
        · simp [firstOccurrences, ih, hr, hq, List.filter_append]

theorem runOps_queue_spec (ops : List Op) (s : AppState) (acc : List String)
    (hops : ops.all isQueueOp = true)
    (hinv : s.queue = firstOccurrences acc) :
    (runOps s ops).queue = firstOccurrences (ops.foldl rawQueueStep acc) := by
  induction ops generalizing s acc with
  | nil => simpa [runOps] using hinv
  | cons op ops ih =>
      rw [List.all_cons, Bool.and_eq_true] at hops
      obtain ⟨hop, hops⟩ := hops
      cases op with
      | enqueue p =>
          show (runOps (s.enqueue p) ops).queue =
            firstOccurrences (ops.foldl rawQueueStep (rawQueueStep acc (.enqueue p)))
          refine ih _ _ hops ?_
          show (s.enqueue p).queue = firstOccurrences (acc ++ [p])
          rw [firstOccurrences_append]
          unfold AppState.enqueue
          by_cases hp : p ∈ s.queue
          · have hacc : p ∈ acc := by
              rw [hinv, mem_firstOccurrences] at hp; exact hp
            rw [if_pos hp, if_pos hacc]; exact hinv
          · have hacc : p ∉ acc := by
              rw [hinv, mem_firstOccurrences] at hp; exact hp
            rw [if_neg hp, if_neg hacc]
            show s.queue ++ [p] = firstOccurrences acc ++ [p]
            rw [hinv]
      | clearQueue =>
          exact ih _ _ hops rfl
      | upsert t => simp [isQueueOp] at hop
      | setStatus id st msg prog err => simp [isQueueOp] at hop
      | clearTasks => simp [isQueueOp] at hop

/-- Claim C6: for every sequence of `enqueue` calls interleaved with
`clear_queue` calls (starting from the fresh manager), the queue never
holds duplicate paths and `get_queue` returns the enqueued paths in
insertion order restricted to those added since the last clear; moreover
each `enqueue` grows the queue by at most one and is a no-op on a path
already present. -/
theorem claim_C6 (ops : List Op) (hops : ops.all isQueueOp = true) :
    (runOps AppState.empty ops).queue.Nodup ∧
    (runOps AppState.empty ops).get_queue =
      firstOccurrences (enqueuedSinceClear ops) ∧
    (∀ (s : AppState) (p : String),
      (s.enqueue p).queue.length ≤ s.queue.length + 1) ∧
    (∀ (s : AppState) (p : String), p ∈ s.queue → s.enqueue p = s) := by
  have h2 : (runOps AppState.empty ops).queue =
      firstOccurrences (enqueuedSinceClear ops) :=
    runOps_queue_spec ops AppState.empty [] hops rfl
  refine ⟨h2 ▸ nodup_firstOccurrences _, h2, ?_, ?_⟩
  · intro s p
    unfold AppState.enqueue
    by_cases hp : p ∈ s.queue
    · rw [if_pos hp]; exact Nat.le_succ _
    · rw [if_neg hp]; simp
  · intro s p hp
    simp [AppState.enqueue, hp]

theorem claim_C6_witness :
    c6_ops.all isQueueOp = true ∧
    (runOps AppState.empty c6_ops).queue.Nodup ∧
    (runOps AppState.empty c6_ops).get_queue =
      firstOccurrences (enqueuedSinceClear c6_ops) ∧
    (runOps AppState.empty c6_ops).get_queue = ["/c", "/d"] ∧
    (AppState.empty.enqueue "/x").queue.length ≤
      AppState.empty.queue.length + 1 :=
  ⟨by decide, (claim_C6 c6_ops (by decide)).1, (claim_C6 c6_ops (by decide)).2.1,
   by decide, (claim_C6 c6_ops (by decide)).2.2.1 AppState.empty "/x"⟩

theorem enqueue_current_tasks (s : AppState) (p : String) :
    (s.enqueue p).current_tasks = s.current_tasks := by
  unfold AppState.enqueue; split <;> rfl

theorem enqueue_task_history (s : AppState) (p : String) :
    (s.enqueue p).task_history = s.task_history := by
  unfold AppState.enqueue; split <;> rfl

theorem step_preserves_inv (s : AppState) (op : Op)
    (hk : keysConsistent s) (hn : noActiveHistoryOverlap s)
    (hf : opFresh s op = true) :
    keysConsistent (stepOp s op) ∧ noActiveHistoryOverlap (stepOp s op) := by
  cases op with
  | enqueue p =>
      constructor
      · intro q hq
        rw [stepOp, enqueue_current_tasks] at hq
        exact hk q hq
      · intro id hid
        rw [stepOp, show activeIds (s.enqueue p) = activeIds s from by
              unfold activeIds; rw [enqueue_current_tasks],
            show historyIds (s.enqueue p) = historyIds s from by
              unfold historyIds; rw [enqueue_task_history]] at hid
        exact hn id hid
  | clearQueue =>
      exact ⟨fun q hq => hk q hq, fun id hid => hn id hid⟩
  | clearTasks =>
      constructor
      · intro q hq
        simp [stepOp, AppState.clear_tasks] at hq
      · intro id hid
        simp [stepOp, AppState.clear_tasks, activeIds, dictKeys] at hid
  | upsert t =>
      have hfr : t.task_id ∉ historyIds s := by
        simpa [opFresh] using hf
      constructor
      · intro q hq
        simp only [stepOp, AppState.upsert_task] at hq
        rcases mem_dictInsert hq with h | h
        · rw [h]
        · exact hk q h
      · intro id hid
        obtain ⟨ha, hh⟩ := hid
        simp only [stepOp, AppState.upsert_task, activeIds] at ha
        simp only [stepOp, AppState.upsert_task, historyIds] at hh
        rcases (mem_keys_dictInsert _ _ _ _).1 ha with h | h
        · exact hfr (h ▸ hh)
        · exact hn id ⟨h, hh⟩
  | setStatus task_id st msg prog err =>
      simp only [stepOp]
      cases hget : dictGet s.current_tasks task_id with
      | none =>
          rw [set_task_status_missing s task_id st msg prog err hget]
          exact ⟨hk, hn⟩
      | some t =>
          have htid : t.task_id = task_id := hk _ (dictGet_mem hget)
          by_cases hterm : st = "done" ∨ st = "error"
          · rw [set_task_status_terminal s task_id st msg prog err t hget hterm]
            constructor
            · intro q hq
              exact hk q (mem_dictPop hq)
            · intro id hid
              obtain ⟨ha, hh⟩ := hid
              simp only [activeIds] at ha
              obtain ⟨hne, hmem⟩ := mem_keys_dictPop ha
              simp only [historyIds, List.map_append, List.mem_append,
                List.map_cons, List.map_nil, List.mem_singleton] at hh
              rcases hh with hh | hh
              · exact hn id ⟨hmem, hh⟩
              · rw [hh, applyUpdate_task_id, htid] at hne
                exact hne rfl
          · rw [set_task_status_nonterminal s task_id st msg prog err t hget hterm]
            constructor
            · intro q hq
              rcases mem_dictInsert hq with h | h
              · rw [h]
                show (applyUpdate t st msg prog err).task_id = task_id
                rw [applyUpdate_task_id, htid]
              · exact hk q h
            · intro id hid
              obtain ⟨ha, hh⟩ := hid
              simp only [activeIds] at ha
              rcases (mem_keys_dictInsert _ _ _ _).1 ha with h | h
              · refine hn id ⟨?_, hh⟩
                rw [h]
                exact dictGet_some_mem_keys hget
              · exact hn id ⟨h, hh⟩

theorem runOps_preserves_inv (ops : List Op) (s : AppState)
    (hk : keysConsistent s) (hn : noActiveHistoryOverlap s)
    (hf : freshUpserts s ops = true) :
    keysConsistent (runOps s ops) ∧ noActiveHistoryOverlap (runOps s ops) := by
  induction ops generalizing s with
  | nil => exact ⟨hk, hn⟩
  | cons op ops ih =>
      rw [freshUpserts, Bool.and_eq_true] at hf
      obtain ⟨hf1, hf2⟩ := hf
      have hstep := step_preserves_inv s op hk hn hf1
      exact ih _ hstep.1 hstep.2 hf2

/-- Claim C2 counterexample: upsert a task, drive it to a terminal status
(moving it to history), then upsert a record with the same identifier
again — the identifier is now present in the active mapping and in the
history simultaneously, refuting the claimed trichotomy for arbitrary
operation sequences. -/
theorem claim_C2_counterexample :
    "a" ∈ activeIds (runOps AppState.empty c2_bad_ops) ∧
    "a" ∈ historyIds (runOps AppState.empty c2_bad_ops) := by
  decide

/-- Claim C2 as amended: for every operation sequence from the fresh
manager in which each `upsert_task` uses an identifier not already in the
history at that point (the spec's "identifiers are generated fresh per
batch" assumption), every identifier is in exactly one of three cases:
absent from both active mapping and history, active only, or in history
only — never in both. -/
theorem claim_C2_amended (ops : List Op)
    (hf : freshUpserts AppState.empty ops = true) (id : String) :
    (id ∉ activeIds (runOps AppState.empty ops) ∧
     id ∉ historyIds (runOps AppState.empty ops)) ∨
    (id ∈ activeIds (runOps AppState.empty ops) ∧
     id ∉ historyIds (runOps AppState.empty ops)) ∨
    (id ∉ activeIds (runOps AppState.empty ops) ∧
     id ∈ historyIds (runOps AppState.empty ops)) := by
  have h := runOps_preserves_inv ops AppState.empty
    (by intro p hp; simp [AppState.empty] at hp)
    (by intro i hi; simp [AppState.empty, activeIds, dictKeys] at hi)
    hf
  have hn := h.2 id
  by_cases ha : id ∈ activeIds (runOps AppState.empty ops) <;>
    by_cases hh : id ∈ historyIds (runOps AppState.empty ops) <;>
    tauto

theorem claim_C2_amended_witness :
    freshUpserts AppState.empty c2_good_ops = true ∧
    (("a" ∉ activeIds (runOps AppState.empty c2_good_ops) ∧
      "a" ∉ historyIds (runOps AppState.empty c2_good_ops)) ∨
     ("a" ∈ activeIds (runOps AppState.empty c2_good_ops) ∧
      "a" ∉ historyIds (runOps AppState.empty c2_good_ops)) ∨
     ("a" ∉ activeIds (runOps AppState.empty c2_good_ops) ∧
      "a" ∈ historyIds (runOps AppState.empty c2_good_ops))) :=
  ⟨by decide, claim_C2_amended c2_good_ops (by decide) "a"⟩

/-!  Claim C9: `process_queue` drains the whole queue into tasks. -/
theorem drainLoop_queue_history (ie : Bool) (jm : String) (pv : Bool)
    (now : Int) (pairs : List (String × String)) (s : AppState) :
    (drainLoop ie jm pv now s pairs).queue = s.queue ∧
    (drainLoop ie jm pv now s pairs).task_history = s.task_history := by
  induction pairs generalizing s with
  | nil => exact ⟨rfl, rfl⟩
  | cons pr rest ih =>
      obtain ⟨tid, fp⟩ := pr
      exact ih (s.upsert_task (mkQueuedTask tid fp ie jm pv now))

theorem drainLoop_lookup_of_not_mem (ie : Bool) (jm : String) (pv : Bool)
    (now : Int) (pairs : List (String × String)) (s : AppState)
    (tid : String) (h : tid ∉ pairs.map Prod.fst) :
    dictGet (drainLoop ie jm pv now s pairs).current_tasks tid =
      dictGet s.current_tasks tid := by
  induction pairs generalizing s with
  | nil => rfl
  | cons pr rest ih =>
      obtain ⟨tid', fp⟩ := pr
      simp only [List.map_cons, List.mem_cons] at h
      push_neg at h
      rw [show drainLoop ie jm pv now s ((tid', fp) :: rest) =
            drainLoop ie jm pv now
              (s.upsert_task (mkQueuedTask tid' fp ie jm pv now)) rest from rfl,
          ih _ h.2]
      show dictGet (dictInsert s.current_tasks tid' _) tid = _
      rw [dictGet_insert]
      exact if_neg (fun hh => h.1 hh.symm)

theorem drainLoop_lookup (ie : Bool) (jm : String) (pv : Bool) (now : Int)
    (pairs : List (String × String)) (s : AppState)
    (hnd : (pairs.map Prod.fst).Nodup) :
    ∀ pr ∈ pairs,
      dictGet (drainLoop ie jm pv now s pairs).current_tasks pr.1 =
        some (mkQueuedTask pr.1 pr.2 ie jm pv now) := by
  induction pairs generalizing s with
  | nil => intro pr hpr; simp at hpr
  | cons hd rest ih =>
      obtain ⟨tid, fp⟩ := hd
      simp only [List.map_cons, List.nodup_cons] at hnd
      intro pr hpr
      rcases List.mem_cons.1 hpr with rfl | hpr'
      · rw [show drainLoop ie jm pv now s ((tid, fp) :: rest) =
              drainLoop ie jm pv now
                (s.upsert_task (mkQueuedTask tid fp ie jm pv now)) rest from rfl,
            drainLoop_lookup_of_not_mem ie jm pv now rest _ tid hnd.1]
        show dictGet (dictInsert s.current_tasks tid _) tid = _
        rw [dictGet_insert, if_pos rfl]
      · exact ih _ hnd.2 pr hpr'

theorem drainLoop_length (ie : Bool) (jm : String) (pv : Bool) (now : Int)
    (pairs : List (String × String)) (s : AppState)
    (hnd : (pairs.map Prod.fst).Nodup)
    (hfresh : ∀ k ∈ pairs.map Prod.fst, k ∉ dictKeys s.current_tasks) :
    (drainLoop ie jm pv now s pairs).current_tasks.length =
      s.current_tasks.length + pairs.length := by
  induction pairs generalizing s with
  | nil => rfl
  | cons hd rest ih =>
      obtain ⟨tid, fp⟩ := hd
      simp only [List.map_cons, List.nodup_cons] at hnd
      have hfr0 : tid ∉ dictKeys s.current_tasks :=
        hfresh tid (by simp)
      have hrest : ∀ k ∈ rest.map Prod.fst,
          k ∉ dictKeys (s.upsert_task (mkQueuedTask tid fp ie jm pv now)).current_tasks := by
        intro k hk hmem
        have hins : k ∈ dictKeys (dictInsert s.current_tasks tid
            (mkQueuedTask tid fp ie jm pv now)) := hmem
        rcases (mem_keys_dictInsert _ _ _ _).1 hins with h | h
        · exact hnd.1 (h ▸ hk)
        · exact hfresh k (by simp [hk]) h
      rw [show drainLoop ie jm pv now s ((tid, fp) :: rest) =
            drainLoop ie jm pv now
              (s.upsert_task (mkQueuedTask tid fp ie jm pv now)) rest from rfl,
          ih _ hnd.2 hrest]
      show (dictInsert s.current_tasks tid _).length + rest.length = _
      rw [dictInsert_length_fresh _ hfr0]
      simp [Nat.add_assoc, Nat.add_comm 1 rest.length]

/-- Claim C9: when the queue is non-empty, `process_queue` creates exactly
one task per queued path — each stored under a freshly generated
identifier with status `"pending"` and progress `0` — returns exactly that
many identifiers, and leaves the queue empty; when the queue is empty it
fails with HTTP 400 and creates no tasks.  The `uuid4` outcomes are the
given `ids`, assumed pairwise distinct and distinct from every active
identifier. -/
theorem claim_C9 (s : AppState) (ids : List String) (ie : Bool)
    (jm : String) (pv : Bool) (now : Int)
    (hlen : ids.length = s.queue.length) (hnd : ids.Nodup)
    (hfresh : ∀ id ∈ ids, id ∉ activeIds s) :
    (s.queue = [] → process_queue s ids ie jm pv now = .error 400) ∧
    (s.queue ≠ [] →
      process_queue s ids ie jm pv now =
        .ok ((drainLoop ie jm pv now s (ids.zip s.queue)).clear_queue, ids) ∧
      ((drainLoop ie jm pv now s (ids.zip s.queue)).clear_queue).queue = [] ∧
      ((drainLoop ie jm pv now s (ids.zip s.queue)).clear_queue).task_history =
        s.task_history ∧
      ((drainLoop ie jm pv now s (ids.zip s.queue)).clear_queue).current_tasks.length =
        s.current_tasks.length + s.queue.length ∧
      ids.length = s.queue.length ∧
      (∀ pr ∈ ids.zip s.queue,
        dictGet ((drainLoop ie jm pv now s (ids.zip s.queue)).clear_queue).current_tasks pr.1 =
          some (mkQueuedTask pr.1 pr.2 ie jm pv now) ∧
        (mkQueuedTask pr.1 pr.2 ie jm pv now).status = "pending" ∧
        (mkQueuedTask pr.1 pr.2 ie jm pv now).progress = 0)) := by
  have hmapfst : (ids.zip s.queue).map Prod.fst = ids :=
    List.map_fst_zip ids s.queue (le_of_eq hlen)
  constructor
  · intro hempty
    simp [process_queue, AppState.get_queue, hempty]
  · intro hne
    have hok : process_queue s ids ie jm pv now =
        .ok ((drainLoop ie jm pv now s (ids.zip s.queue)).clear_queue,
             (ids.zip s.queue).map Prod.fst) := by
      simp only [process_queue, AppState.get_queue]
      rw [if_neg hne]
    refine ⟨by rw [hok, hmapfst], rfl, ?_, ?_, hlen, ?_⟩
    · show (drainLoop ie jm pv now s (ids.zip s.queue)).task_history = _
      exact (drainLoop_queue_history ie jm pv now (ids.zip s.queue) s).2
    · show (drainLoop ie jm pv now s (ids.zip s.queue)).current_tasks.length = _
      rw [drainLoop_length ie jm pv now (ids.zip s.queue) s
            (by rw [hmapfst]; exact hnd) (by rw [hmapfst]; exact hfresh),
          List.length_zip, hlen, Nat.min_self]
    · intro pr hpr
      exact ⟨drainLoop_lookup ie jm pv now (ids.zip s.queue) s
               (by rw [hmapfst]; exact hnd) pr hpr, rfl, rfl⟩

theorem claim_C9_witness :
    process_queue c9_state ["id0", "id1"] false "copy" false 5 =
      .ok ((drainLoop false "copy" false 5 c9_state
              (["id0", "id1"].zip c9_state.queue)).clear_queue,
           ["id0", "id1"]) ∧
    ((drainLoop false "copy" false 5 c9_state
        (["id0", "id1"].zip c9_state.queue)).clear_queue).queue = [] ∧
    ((drainLoop false "copy" false 5 c9_state
        (["id0", "id1"].zip c9_state.queue)).clear_queue).current_tasks.length =
      c9_state.current_tasks.length + c9_state.queue.length ∧
    dictGet ((drainLoop false "copy" false 5 c9_state
        (["id0", "id1"].zip c9_state.queue)).clear_queue).current_tasks "id0" =
      some (mkQueuedTask "id0" "/tmp/a" false "copy" false 5) ∧
    (mkQueuedTask "id0" "/tmp/a" false "copy" false 5).status = "pending" ∧
    (mkQueuedTask "id0" "/tmp/a" false "copy" false 5).progress = 0 := by
  have hmain := claim_C9 c9_state ["id0", "id1"] false "copy" false 5
    (by decide) (by decide) (by decide)
  have hne := hmain.2 (by decide)
  have hpr := hne.2.2.2.2.2 ("id0", "/tmp/a") (by decide)
  exact ⟨hne.1, hne.2.1, hne.2.2.2.1, hpr.1, hpr.2.1, hpr.2.2⟩

theorem claim_C4_amended_witness :
    c4_new.list_tasks.find? (fun x => x.task_id == "t4") = some c4_task ∧
    dictGet (bridgeSnapshot c4_new {} "t4").current_tasks "t4" =
      some (snapshotEntry c4_task) ∧
    (snapshotEntry c4_task).status = some c4_task.status ∧
    (snapshotEntry c4_task).include_excluded = some c4_task.include_excluded ∧
    (snapshotEntry c4_task).joint_mode = none :=
  ⟨by decide,
   (claim_C4_amended c4_new {} "t4" c4_task (by decide)).1,
   (claim_C4_amended c4_new {} "t4" c4_task (by decide)).2.2.1,
   (claim_C4_amended c4_new {} "t4" c4_task (by decide)).2.2.2.2.2.2.2.1,
   (claim_C4_amended c4_new {} "t4" c4_task (by decide)).2.2.2.2.2.2.2.2.1⟩
